import Mathlib

/-!
Verification of the inline autoformatting engine
(`src/inlineautoformatediting.js`).

The embedding models:

* the default regex-driven test callback (the `while ( regExp.exec( text ) )`
  loop), including the mutable `lastIndex` state of a shared global `RegExp`
  object and the `result.length < 4` break;
* the `change` event handler: transparent-batch / collapsed-selection /
  single-character-insertion filters, the leading-text computation,
  `testOutputToRanges`, the both-lists-non-empty guard, and the enqueued
  change (schema narrowing, format callback, reversed removal);
* the constructor dispatch on `attributeOrCallback`
  (string attribute key vs. formatting callback);
* the writer actions performed inside `enqueueChange`, interpreted on a
  simple attributed-character model of the block content.

Model positions inside the caret's block are represented by their integer
offsets (the JS code only ever builds positions via
`model.createPositionAt( block, offset )`), so a model range is a pair of
integer offsets.  Offsets are `Int` because the JS index arithmetic
`index += result[ 0 ].length - found.length` is ordinary (possibly
negative) number arithmetic.
-/

namespace InlineAutoformat

/-- One successful result of `regExp.exec( text )`: the JS match object,
with `index` (`result.index`), the array of the full match and the captured
groups (`result[ 0 ], result[ 1 ], ...`), and the value the global regex
stores into its `lastIndex` property after the match. -/
structure RawMatch where
  index : Nat
  arr : List String
  nextLastIndex : Nat
deriving DecidableEq, Repr

/-- A JS global `RegExp` object, abstracted: `exec1 t i` is the result of
`exec` on text `t` when the regex's `lastIndex` is `i`.  `arity` is the
(constant) length of every returned match array: a regex source with `k`
capture groups always produces arrays of length `k + 1`.  `advance` captures
that a successful match of a global regex strictly advances `lastIndex` and
never beyond the text's end (this is what makes the exec loop terminate). -/
structure GlobalRegex where
  arity : Nat
  exec1 : String → Nat → Option RawMatch
  arity_eq : ∀ t i m, exec1 t i = some m → m.arr.length = arity
  advance : ∀ t i m, exec1 t i = some m → i < m.nextLastIndex ∧ m.nextLastIndex ≤ t.length

/-- Output of a test callback: `remove` and `format` are arrays of offset
pairs; a bound is `none` when the JS array slot is `undefined` (for example
a pair written as `[]`). -/
structure TestOutput where
  remove : List (Option Int × Option Int)
  format : List (Option Int × Option Int)
deriving DecidableEq, Repr

/-- `result[ k ]` as a string (the default test callback only reads slots
that exist, guarded by the `result.length < 4` break). -/
def grp (m : RawMatch) (k : Nat) : String :=
  m.arr.getD k ""

/-- The pairs pushed for one match by the body of the default test
callback's loop: `delStart`, `delEnd` (pushed to `remove`) and the pair
pushed to `format`.  Mirrors the source:
`found = leftDel + content + rightDel`,
`index += result[ 0 ].length - found.length`. -/
def matchPairs (m : RawMatch) :
    List (Option Int × Option Int) × (Option Int × Option Int) :=
  let leftDel := grp m 1
  let content := grp m 2
  let rightDel := grp m 3
  let found := leftDel ++ content ++ rightDel
  let index : Int := (m.index : Int) + (((grp m 0).length : Int) - (found.length : Int))
  ([ (some index, some (index + (leftDel.length : Int))),
     (some (index + (leftDel.length : Int) + (content.length : Int)),
      some (index + (leftDel.length : Int) + (content.length : Int) + (rightDel.length : Int))) ],
   (some (index + (leftDel.length : Int)),
    some (index + (leftDel.length : Int) + (content.length : Int))))

/-- The default test callback's `while ( ( result = regExp.exec( text ) ) !== null )`
loop.  `i` is the regex's current `lastIndex`; the returned `Nat` is the
regex's `lastIndex` after the call (JS resets it to `0` when `exec` fails;
a `break` on `result.length < 4` leaves it at the end of that match). -/
def defaultLoop (re : GlobalRegex) (t : String) (i : Nat)
    (removeAcc formatAcc : List (Option Int × Option Int)) : TestOutput × Nat :=
  match _h : re.exec1 t i with
  | none => (⟨removeAcc, formatAcc⟩, 0)
  | some m =>
    if m.arr.length < 4 then
      (⟨removeAcc, formatAcc⟩, m.nextLastIndex)
    else
      defaultLoop re t m.nextLastIndex
        (removeAcc ++ (matchPairs m).1) (formatAcc ++ [(matchPairs m).2])
termination_by t.length + 1 - i
decreasing_by
  have hadv := re.advance t i m _h
  omega

/-- One invocation of the default test callback starting from `lastIndex = 0`
(the state a fresh regex starts in). -/
def testCallback (re : GlobalRegex) (text : String) : TestOutput :=
  (defaultLoop re text 0 [] []).1

/-- The successive matches of the global regex on `t` starting from
`lastIndex = i` (the sequence of non-null `exec` results). -/
def matchSeq (re : GlobalRegex) (t : String) (i : Nat) : List RawMatch :=
  match _h : re.exec1 t i with
  | none => []
  | some m => m :: matchSeq re t m.nextLastIndex
termination_by t.length + 1 - i
decreasing_by
  have hadv := re.advance t i m _h
  omega

/-- A sequence of invocations of the default test callback on the given
texts, threading the shared regex object's `lastIndex` across invocations
(the closure captures one `RegExp`). -/
def runSequence (re : GlobalRegex) (lastIndex : Nat) : List String → List TestOutput
  | [] => []
  | t :: ts =>
    (defaultLoop re t lastIndex [] []).1 ::
      runSequence re (defaultLoop re t lastIndex [] []).2 ts

/-- A change batch: only its `type` tag is inspected by the engine
(`batch.type == 'transparent'`). -/
structure Batch where
  type : String
deriving DecidableEq, Repr

/-- One entry of `editor.model.document.differ.getChanges()`. -/
structure ChangeEntry where
  type : String
  name : String
  length : Nat
deriving DecidableEq, Repr

/-- The document selection as seen by the handler: `isCollapsed`, and
`focus.offset` (the caret's offset inside its parent block). -/
structure Selection where
  isCollapsed : Bool
  focusOffset : Nat
deriving DecidableEq, Repr

/-- The caret's parent block (`selection.focus.parent`): its children are
text nodes, each carrying its `data` string. -/
structure Block where
  children : List String
deriving DecidableEq, Repr

/-- A model range inside the block, represented by the integer offsets of
its start and end positions (`model.createRange( model.createPositionAt(
block, a ), model.createPositionAt( block, b ) )`). -/
structure ModelRange where
  start : Int
  stop : Int
deriving DecidableEq, Repr

/-- A writer call performed inside the enqueued change:
`writer.setAttribute( key, true, range )`,
`writer.removeSelectionAttribute( key )`, or `writer.remove( range )`. -/
inductive WriterAction where
  | setAttribute (key : String) (range : ModelRange)
  | removeSelectionAttribute (key : String)
  | remove (range : ModelRange)
deriving DecidableEq, Repr

/-- `getText( element )`: concatenates the `data` of all children
(`Array.from( element.getChildren() ).reduce( ( a, b ) => a + b.data, '' )`). -/
def getText (element : Block) : String :=
  element.children.foldl (fun a b => a ++ b) ""

/-- `testOutputToRanges( block, arrays, model )`: drops pairs with an
`undefined` bound, and converts each surviving pair to the model range
between positions `array[ 0 ]` and `array[ 1 ]` in the block. -/
def testOutputToRanges (arrays : List (Option Int × Option Int)) : List ModelRange :=
  (arrays.filter fun array => array.1.isSome && array.2.isSome).map
    fun array => ⟨array.1.getD 0, array.2.getD 0⟩

/-- The change filter's positive form: the batch's change set is exactly one
entry, an insertion of a `'$text'` node of length `1`.  The source tests the
negation: `changes.length != 1 || entry.type !== 'insert' ||
entry.name != '$text' || entry.length != 1`. -/
def singleCharInsert (changes : List ChangeEntry) : Bool :=
  match changes with
  | [entry] => entry.type == "insert" && entry.name == "$text" && entry.length == 1
  | _ => false

/-- What one qualifying event enqueues (the body of
`editor.model.enqueueChange`): the schema-narrowed `validRanges`, the writer
calls issued by the format callback on them, and the ranges passed to
`writer.remove` in the order they are removed. -/
structure Enqueued where
  validRanges : List ModelRange
  formatActions : List WriterAction
  removedInOrder : List ModelRange
deriving DecidableEq, Repr

/-- The `change` event handler registered on `editor.model.document`.
`schema` models `editor.model.schema.getValidRanges` (candidate ranges and
an attribute key that is `none` when the JS variable `attributeKey` is
`undefined`); `testCb` and `formatCb` are the resolved callbacks; `block`
models `selection.focus.parent`.  Returns `none` when the handler returns
without enqueuing anything, and `some e` describing the enqueued change
otherwise. -/
def onChange (schema : List ModelRange → Option String → List ModelRange)
    (testCb : String → TestOutput) (attributeKey : Option String)
    (formatCb : List ModelRange → List WriterAction)
    (batch : Batch) (sel : Selection) (changes : List ChangeEntry)
    (block : Block) : Option Enqueued :=
  if batch.type = "transparent" then none
  else if ¬ sel.isCollapsed then none
  else if ¬ singleCharInsert changes then none
  else
    let text := (getText block).take sel.focusOffset
    let testOutput := testCb text
    let rangesToFormat := testOutputToRanges testOutput.format
    let rangesToRemove := testOutputToRanges testOutput.remove
    if rangesToFormat.length = 0 ∨ rangesToRemove.length = 0 then none
    else
      let validRanges := schema rangesToFormat attributeKey
      some ⟨validRanges, formatCb validRanges, rangesToRemove.reverse⟩

/-- The default format callback built when `attributeOrCallback` is a
string: set the attribute to `true` on every valid range, then remove the
attribute from the selection. -/
def defaultFormatCallback (attributeKey : String) (validRanges : List ModelRange) :
    List WriterAction :=
  (validRanges.map fun range => WriterAction.setAttribute attributeKey range) ++
    [WriterAction.removeSelectionAttribute attributeKey]

/-- The constructor's `attributeOrCallback` argument: a string attribute
name or a formatting callback (`typeof attributeOrCallback == 'string'`). -/
inductive AttrOrCallback where
  | attr (name : String)
  | callback (f : List ModelRange → List WriterAction)

/-- The `attributeKey` local after the constructor's dispatch: set only in
the string branch, left `undefined` for a callback. -/
def resolveAttributeKey : AttrOrCallback → Option String
  | .attr name => some name
  | .callback _ => none

/-- The `formatCallback` local after the constructor's dispatch:
the supplied callback, or the default attribute-driven one. -/
def resolveFormatCallback : AttrOrCallback → List ModelRange → List WriterAction
  | .attr name => defaultFormatCallback name
  | .callback f => f

/-- One character of block content with its set of attribute keys. -/
structure ModelChar where
  char : Char
  attrs : List String
deriving DecidableEq, Repr

/-- Interpretation of a writer call on the block's content.
`removeSelectionAttribute` touches only the selection's typing attributes,
not the block content. -/
def applyAction (content : List ModelChar) : WriterAction → List ModelChar
  | .setAttribute key range =>
    content.mapIdx fun j c =>
      if range.start ≤ (j : Int) ∧ (j : Int) < range.stop then ⟨c.char, key :: c.attrs⟩ else c
  | .removeSelectionAttribute _ => content
  | .remove range =>
    (content.enum.filter fun p => ¬ (range.start ≤ (p.1 : Int) ∧ (p.1 : Int) < range.stop)).map
      Prod.snd

/-- The effect of the handler on the block content: nothing when no change
was enqueued, otherwise the format callback's writer calls followed by the
removals, in order. -/
def applyEnqueued (content : List ModelChar) : Option Enqueued → List ModelChar
  | none => content
  | some e =>
    (e.formatActions ++ e.removedInOrder.map WriterAction.remove).foldl applyAction content

/-- Length of `result[ k ]` as an integer. -/
def lenG (m : RawMatch) (k : Nat) : Int :=
  ((grp m k).length : Int)

/-- The true start index of a match as the spec describes it: the raw match
index plus (full match length minus the length of `group1 + group2 +
group3`). -/
def specStart (m : RawMatch) : Int :=
  (m.index : Int) + (lenG m 0 - (lenG m 1 + lenG m 2 + lenG m 3))

/-- The two `remove` pairs the spec describes for one match: one spanning
group 1 and one spanning group 3. -/
def specRemovePairs (m : RawMatch) : List (Option Int × Option Int) :=
  [ (some (specStart m), some (specStart m + lenG m 1)),
    (some (specStart m + lenG m 1 + lenG m 2),
     some (specStart m + lenG m 1 + lenG m 2 + lenG m 3)) ]

/-- The `format` pair the spec describes for one match: it spans group 2. -/
def specFormatPair (m : RawMatch) : Option Int × Option Int :=
  (some (specStart m + lenG m 1), some (specStart m + lenG m 1 + lenG m 2))

/-- The ranges are in ascending order of start offset. -/
def ascendingByStart (rs : List ModelRange) : Prop :=
  rs.Pairwise fun a b => a.start ≤ b.start

/-- The ranges are in descending order of start offset. -/
def descendingByStart (rs : List ModelRange) : Prop :=
  rs.Pairwise fun a b => b.start ≤ a.start

section Fixtures

/-- A schema on which every candidate range is valid for every attribute. -/
def schemaId : List ModelRange → Option String → List ModelRange := fun rs _ => rs

/-- A schema on which no candidate range is ever valid (the attribute is
disallowed everywhere). -/
def schemaEmpty : List ModelRange → Option String → List ModelRange := fun _ _ => []

/-- An ordinary (typing) batch. -/
def batchDefault : Batch := ⟨"default"⟩

/-- A transparent batch. -/
def batchTransparent : Batch := ⟨"transparent"⟩

/-- A collapsed selection whose focus sits at the given offset. -/
def caretAt (off : Nat) : Selection := ⟨true, off⟩

/-- A change set holding exactly one single-character text insertion. -/
def oneCharInsert : List ChangeEntry := [⟨"insert", "$text", 1⟩]

/-- A block holding one text node. -/
def sampleBlock : Block := ⟨["*foob*x"]⟩

/-- A concrete global regex behaving like `/(\*)(f)(\*)/g`: on the text
`"*f*"` with `lastIndex = 0` it matches once, with groups `*`, `f`, `*`. -/
def star3 : GlobalRegex where
  arity := 4
  exec1 := fun t i => if t = "*f*" ∧ i = 0 then some ⟨0, ["*f*", "*", "f", "*"], 3⟩ else none
  arity_eq := by
    intro t i m h
    by_cases hc : t = "*f*" ∧ i = 0
    · simp [hc] at h
      subst h
      rfl
    · simp [hc] at h
  advance := by
    intro t i m h
    by_cases hc : t = "*f*" ∧ i = 0
    · obtain ⟨rfl, rfl⟩ := hc
      simp at h
      subst h
      decide
    · simp [hc] at h

/-- A concrete global regex behaving like `/(\*)(f)\*/g`, with only two
capture groups: match arrays have length `3`. -/
def star2 : GlobalRegex where
  arity := 3
  exec1 := fun t i => if t = "*f*" ∧ i = 0 then some ⟨0, ["*f*", "*", "f"], 3⟩ else none
  arity_eq := by
    intro t i m h
    by_cases hc : t = "*f*" ∧ i = 0
    · simp [hc] at h
      subst h
      rfl
    · simp [hc] at h
  advance := by
    intro t i m h
    by_cases hc : t = "*f*" ∧ i = 0
    · obtain ⟨rfl, rfl⟩ := hc
      simp at h
      subst h
      decide
    · simp [hc] at h

/-- A custom test callback whose `remove` pairs are not in ascending start
order. -/
def tcbUnsorted : String → TestOutput :=
  fun _ => ⟨[(some 5, some 6), (some 0, some 1)], [(some 1, some 5)]⟩

/-- A custom test callback whose `remove` pairs are in ascending start
order. -/
def tcbAscending : String → TestOutput :=
  fun _ => ⟨[(some 0, some 1), (some 5, some 6)], [(some 1, some 5)]⟩

/-- The stub from the test suite that returns `format: [ [] ], remove: [] `:
the only format pair has `undefined` bounds. -/
def tcbNoRanges : String → TestOutput :=
  fun _ => ⟨[], [(none, none)]⟩

/-- The change the handler enqueues for `tcbUnsorted` under `schemaId`
with attribute `testAttribute`. -/
def enqUnsorted : Enqueued :=
  ⟨[⟨1, 5⟩],
   [WriterAction.setAttribute "testAttribute" ⟨1, 5⟩,
    WriterAction.removeSelectionAttribute "testAttribute"],
   [⟨0, 1⟩, ⟨5, 6⟩]⟩

/-- The change the handler enqueues for `tcbAscending` under `schemaId`
with attribute `testAttribute`. -/
def enqAscending : Enqueued :=
  ⟨[⟨1, 5⟩],
   [WriterAction.setAttribute "testAttribute" ⟨1, 5⟩,
    WriterAction.removeSelectionAttribute "testAttribute"],
   [⟨5, 6⟩, ⟨0, 1⟩]⟩

/-- The change the handler enqueues for `tcbAscending` under `schemaEmpty`
with attribute `testAttribute`: no valid range survives narrowing, yet the
removals still happen. -/
def enqNoValid : Enqueued :=
  ⟨[], [WriterAction.removeSelectionAttribute "testAttribute"], [⟨5, 6⟩, ⟨0, 1⟩]⟩

/-- A custom formatting callback supplied instead of an attribute name. -/
def cbCustom : List ModelRange → List WriterAction :=
  fun rs => rs.map (WriterAction.setAttribute "custom")

/-- The change the handler enqueues for `tcbAscending` under `schemaId`
when the formatting target is the callback `cbCustom`. -/
def enqCallback : Enqueued :=
  ⟨[⟨1, 5⟩], [WriterAction.setAttribute "custom" ⟨1, 5⟩], [⟨5, 6⟩, ⟨0, 1⟩]⟩

end Fixtures

section HelperLemmas

theorem matchPairs_fst (m : RawMatch) : (matchPairs m).1 = specRemovePairs m := by
  simp [matchPairs, specRemovePairs, specStart, lenG, String.length_append]

theorem matchPairs_snd (m : RawMatch) : (matchPairs m).2 = specFormatPair m := by
  simp [matchPairs, specFormatPair, specStart, lenG, String.length_append]

theorem defaultLoop_eq (re : GlobalRegex) (h4 : ¬ re.arity < 4) (t : String) :
    ∀ n i removeAcc formatAcc, t.length + 1 - i ≤ n →
      defaultLoop re t i removeAcc formatAcc =
        (⟨removeAcc ++ (matchSeq re t i).flatMap (fun m => (matchPairs m).1),
          formatAcc ++ (matchSeq re t i).map (fun m => (matchPairs m).2)⟩, 0) := by
  intro n
  induction n with
  | zero =>
    intro i removeAcc formatAcc hn
    rw [defaultLoop, matchSeq]
    cases h : re.exec1 t i with
    | none => simp
    | some m =>
      have hadv := re.advance t i m h
      omega
  | succ n ih =>
    intro i removeAcc formatAcc hn
    rw [defaultLoop, matchSeq]
    cases h : re.exec1 t i with
    | none => simp
    | some m =>
      have harity := re.arity_eq t i m h
      have hadv := re.advance t i m h
      dsimp only
      rw [harity, if_neg h4]
      rw [ih m.nextLastIndex _ _ (by omega)]
      simp

theorem defaultLoop_break (re : GlobalRegex) (h4 : re.arity < 4) (t : String)
    (i : Nat) (removeAcc formatAcc : List (Option Int × Option Int)) :
    (defaultLoop re t i removeAcc formatAcc).1 = ⟨removeAcc, formatAcc⟩ := by
  rw [defaultLoop]
  cases h : re.exec1 t i with
  | none => rfl
  | some m =>
    have harity := re.arity_eq t i m h
    dsimp only
    rw [harity, if_pos h4]

theorem defaultLoop_lastIndex (re : GlobalRegex) (h4 : ¬ re.arity < 4) (t : String)
    (i : Nat) (removeAcc formatAcc : List (Option Int × Option Int)) :
    (defaultLoop re t i removeAcc formatAcc).2 = 0 := by
  rw [defaultLoop_eq re h4 t (t.length + 1) i removeAcc formatAcc (by omega)]

theorem onChange_none_of_filter {batch : Batch} {sel : Selection} {changes : List ChangeEntry}
    (h : batch.type = "transparent" ∨ sel.isCollapsed = false ∨ singleCharInsert changes = false)
    (schema : List ModelRange → Option String → List ModelRange)
    (testCb : String → TestOutput) (attributeKey : Option String)
    (formatCb : List ModelRange → List WriterAction) (block : Block) :
    onChange schema testCb attributeKey formatCb batch sel changes block = none := by
  rcases h with h | h | h <;> simp [onChange, h]

theorem onChange_none_of_empty {testCb : String → TestOutput} {sel : Selection} {block : Block}
    (h : testOutputToRanges (testCb ((getText block).take sel.focusOffset)).format = [] ∨
         testOutputToRanges (testCb ((getText block).take sel.focusOffset)).remove = [])
    (schema : List ModelRange → Option String → List ModelRange)
    (attributeKey : Option String)
    (formatCb : List ModelRange → List WriterAction)
    (batch : Batch) (changes : List ChangeEntry) :
    onChange schema testCb attributeKey formatCb batch sel changes block = none := by
  rcases h with h | h <;> simp [onChange, h]

theorem onChange_some_spec {schema : List ModelRange → Option String → List ModelRange}
    {testCb : String → TestOutput} {attributeKey : Option String}
    {formatCb : List ModelRange → List WriterAction}
    {batch : Batch} {sel : Selection} {changes : List ChangeEntry} {block : Block} {e : Enqueued}
    (h : onChange schema testCb attributeKey formatCb batch sel changes block = some e) :
    e.validRanges =
      schema (testOutputToRanges (testCb ((getText block).take sel.focusOffset)).format)
        attributeKey ∧
    e.formatActions = formatCb e.validRanges ∧
    e.removedInOrder =
      (testOutputToRanges (testCb ((getText block).take sel.focusOffset)).remove).reverse ∧
    testOutputToRanges (testCb ((getText block).take sel.focusOffset)).format ≠ [] ∧
    testOutputToRanges (testCb ((getText block).take sel.focusOffset)).remove ≠ [] := by
  simp only [onChange] at h
  split_ifs at h with h1 h2 h3 h4
  injection h with h
  subst h
  simp only [not_or, List.length_eq_zero] at h4
  exact ⟨rfl, rfl, rfl, h4.1, h4.2⟩

end HelperLemmas

/-- C1: for every scanned text and every successive match of the
3-capture-group global regex, the default test function emits the true
start index `rawIndex + (fullMatchLength - (len1 + len2 + len3))`, two
`remove` pairs spanning group 1 and group 3, and one `format` pair spanning
group 2, accumulated across all matches in the scanned text. -/
theorem C1_default_test_output (re : GlobalRegex) (h4 : re.arity = 4) (t : String) :
    testCallback re t =
      ⟨(matchSeq re t 0).flatMap specRemovePairs,
       (matchSeq re t 0).map specFormatPair⟩ := by
  have h : ¬ re.arity < 4 := by omega
  have heq := defaultLoop_eq re h t (t.length + 1) 0 [] [] (by omega)
  simp [testCallback, heq, matchPairs_fst, matchPairs_snd]

/-- Witness for C1 at the concrete regex `star3` and text `"*f*"`. -/
theorem C1_witness :
    star3.arity = 4 ∧
    testCallback star3 "*f*" =
      ⟨(matchSeq star3 "*f*" 0).flatMap specRemovePairs,
       (matchSeq star3 "*f*" 0).map specFormatPair⟩ :=
  ⟨rfl, C1_default_test_output star3 rfl "*f*"⟩

/-- C2: the inline engine mutates only when the batch is not transparent,
the selection is collapsed, and the change set is exactly one insertion of
a `'$text'` node of length 1; if any condition fails the handler returns
`none` whatever the test callback, schema, or format callback are (so the
test callback is never consulted and nothing is enqueued). -/
theorem C2_change_filter (batch : Batch) (sel : Selection) (changes : List ChangeEntry)
    (h : batch.type = "transparent" ∨ sel.isCollapsed = false ∨
         singleCharInsert changes = false) :
    ∀ schema testCb attributeKey formatCb block,
      onChange schema testCb attributeKey formatCb batch sel changes block = none :=
  fun schema testCb attributeKey formatCb block =>
    onChange_none_of_filter h schema testCb attributeKey formatCb block

/-- Witness for C2 at a transparent batch. -/
theorem C2_witness :
    batchTransparent.type = "transparent" ∧
    onChange schemaId tcbAscending (some "testAttribute")
      (defaultFormatCallback "testAttribute") batchTransparent (caretAt 7) oneCharInsert
      sampleBlock = none :=
  ⟨rfl,
   C2_change_filter batchTransparent (caretAt 7) oneCharInsert (Or.inl rfl) schemaId
     tcbAscending (some "testAttribute") (defaultFormatCallback "testAttribute") sampleBlock⟩

/-- C3: if after offset-to-range conversion either the format range list or
the remove range list is empty, the handler aborts: nothing is enqueued, so
neither the format callback nor any removal runs. -/
theorem C3_abort_on_empty_ranges (schema : List ModelRange → Option String → List ModelRange)
    (testCb : String → TestOutput) (attributeKey : Option String)
    (formatCb : List ModelRange → List WriterAction)
    (batch : Batch) (sel : Selection) (changes : List ChangeEntry) (block : Block)
    (h : testOutputToRanges (testCb ((getText block).take sel.focusOffset)).format = [] ∨
         testOutputToRanges (testCb ((getText block).take sel.focusOffset)).remove = []) :
    onChange schema testCb attributeKey formatCb batch sel changes block = none :=
  onChange_none_of_empty h schema attributeKey formatCb batch changes

/-- Witness for C3 at the test suite's stub that returns an empty format
list after conversion. -/
theorem C3_witness :
    testOutputToRanges
      (tcbNoRanges ((getText sampleBlock).take (caretAt 7).focusOffset)).format = [] ∧
    onChange schemaId tcbNoRanges (some "testAttribute")
      (defaultFormatCallback "testAttribute") batchDefault (caretAt 7) oneCharInsert
      sampleBlock = none :=
  ⟨rfl,
   C3_abort_on_empty_ranges schemaId tcbNoRanges (some "testAttribute")
     (defaultFormatCallback "testAttribute") batchDefault (caretAt 7) oneCharInsert
     sampleBlock (Or.inl rfl)⟩

/-- C4 counterexample: with a test function whose `remove` pairs are not in
ascending start order, the engine (which merely reverses the array) deletes
the ranges in an order that is not descending by start offset, refuting the
claim for arbitrary orderings of the pairs. -/
theorem C4_counterexample :
    onChange schemaId tcbUnsorted (some "testAttribute")
      (defaultFormatCallback "testAttribute") batchDefault (caretAt 7) oneCharInsert
      sampleBlock = some enqUnsorted ∧
    ¬ descendingByStart enqUnsorted.removedInOrder := by
  refine ⟨rfl, ?_⟩
  intro hdesc
  simp [descendingByStart, enqUnsorted, List.pairwise_cons] at hdesc

/-- C4 amended: the engine deletes the remove ranges in the reverse of the
order the test function returned them; when those pairs are in ascending
order of start offset (as the default regex test callback produces), the
deletion order is descending by start offset. -/
theorem C4_amended_reverse_removal
    (schema : List ModelRange → Option String → List ModelRange)
    (testCb : String → TestOutput) (attributeKey : Option String)
    (formatCb : List ModelRange → List WriterAction)
    (batch : Batch) (sel : Selection) (changes : List ChangeEntry) (block : Block)
    (e : Enqueued)
    (h : onChange schema testCb attributeKey formatCb batch sel changes block = some e) :
    e.removedInOrder =
      (testOutputToRanges (testCb ((getText block).take sel.focusOffset)).remove).reverse ∧
    (ascendingByStart (testOutputToRanges (testCb ((getText block).take sel.focusOffset)).remove) →
      descendingByStart e.removedInOrder) := by
  obtain ⟨-, -, h3, -, -⟩ := onChange_some_spec h
  refine ⟨h3, fun hasc => ?_⟩
  rw [h3, descendingByStart, List.pairwise_reverse]
  exact hasc

/-- Witness for C4 amended at an ascending-order test function. -/
theorem C4_witness :
    enqAscending.removedInOrder =
      (testOutputToRanges
        (tcbAscending ((getText sampleBlock).take (caretAt 7).focusOffset)).remove).reverse ∧
    (ascendingByStart (testOutputToRanges
        (tcbAscending ((getText sampleBlock).take (caretAt 7).focusOffset)).remove) →
      descendingByStart enqAscending.removedInOrder) :=
  C4_amended_reverse_removal schemaId tcbAscending (some "testAttribute")
    (defaultFormatCallback "testAttribute") batchDefault (caretAt 7) oneCharInsert
    sampleBlock enqAscending rfl

/-- C5 counterexample: with a schema that invalidates every candidate
range, the handler still enqueues a change whose `validRanges` is empty and
still deletes the remove ranges, refuting the claim that the whole
operation is aborted. -/
theorem C5_counterexample :
    onChange schemaEmpty tcbAscending (some "testAttribute")
      (defaultFormatCallback "testAttribute") batchDefault (caretAt 7) oneCharInsert
      sampleBlock = some enqNoValid ∧
    enqNoValid.validRanges = [] ∧ enqNoValid.removedInOrder ≠ [] := by
  refine ⟨rfl, rfl, ?_⟩
  simp [enqNoValid]

/-- C5 amended: when the schema narrows the format ranges to zero valid
ranges, the engine does not abort: the format callback is invoked with the
empty range list and every remove range is still deleted (in reversed
order). -/
theorem C5_amended_no_abort
    (schema : List ModelRange → Option String → List ModelRange)
    (testCb : String → TestOutput) (attributeKey : Option String)
    (formatCb : List ModelRange → List WriterAction)
    (batch : Batch) (sel : Selection) (changes : List ChangeEntry) (block : Block)
    (e : Enqueued)
    (h : onChange schema testCb attributeKey formatCb batch sel changes block = some e)
    (hv : e.validRanges = []) :
    e.formatActions = formatCb [] ∧
    e.removedInOrder =
      (testOutputToRanges (testCb ((getText block).take sel.focusOffset)).remove).reverse ∧
    e.removedInOrder ≠ [] := by
  obtain ⟨-, h2, h3, -, h5⟩ := onChange_some_spec h
  refine ⟨by rw [h2, hv], h3, ?_⟩
  rw [h3]
  simpa using h5

/-- Witness for C5 amended at the everything-invalid schema. -/
theorem C5_witness :
    enqNoValid.formatActions = defaultFormatCallback "testAttribute" [] ∧
    enqNoValid.removedInOrder =
      (testOutputToRanges
        (tcbAscending ((getText sampleBlock).take (caretAt 7).focusOffset)).remove).reverse ∧
    enqNoValid.removedInOrder ≠ [] :=
  C5_amended_no_abort schemaEmpty tcbAscending (some "testAttribute")
    (defaultFormatCallback "testAttribute") batchDefault (caretAt 7) oneCharInsert
    sampleBlock enqNoValid rfl rfl

/-- C6: when the regex yields match arrays with fewer than four slots
(fewer than 3 capture groups), the default test function breaks out of its
loop immediately, returning what was collected so far — which is nothing,
since arrays of a given regex all have the same length — so the handler
enqueues nothing and no partial removal or formatting occurs. -/
theorem C6_short_match_break (re : GlobalRegex) (h : re.arity < 4) :
    (∀ t, testCallback re t = ⟨[], []⟩) ∧
    ∀ schema attributeKey formatCb batch sel changes block,
      onChange schema (testCallback re) attributeKey formatCb batch sel changes block =
        none := by
  have hempty : ∀ t, testCallback re t = ⟨[], []⟩ := fun t => defaultLoop_break re h t 0 [] []
  refine ⟨hempty, fun schema attributeKey formatCb batch sel changes block => ?_⟩
  apply onChange_none_of_empty (Or.inl ?_)
  rw [hempty]
  rfl

/-- Witness for C6 at the two-capture-group regex `star2`. -/
theorem C6_witness :
    star2.arity < 4 ∧ testCallback star2 "*f*" = ⟨[], []⟩ ∧
    onChange schemaId (testCallback star2) (some "testAttribute")
      (defaultFormatCallback "testAttribute") batchDefault (caretAt 3) oneCharInsert
      (⟨["*f*"]⟩ : Block) = none :=
  ⟨by decide, (C6_short_match_break star2 (by decide)).1 "*f*",
   (C6_short_match_break star2 (by decide)).2 schemaId (some "testAttribute")
     (defaultFormatCallback "testAttribute") batchDefault (caretAt 3) oneCharInsert
     ⟨["*f*"]⟩⟩

/-- C7: for a single-character insertion event whose leading-text test
yields no usable match (empty remove or format ranges), the handler returns
without enqueuing and the block content is left exactly as the triggering
insertion left it. -/
theorem C7_no_match_frame (testCb : String → TestOutput) (sel : Selection) (block : Block)
    (changes : List ChangeEntry)
    (hq : singleCharInsert changes = true)
    (h : testOutputToRanges (testCb ((getText block).take sel.focusOffset)).format = [] ∨
         testOutputToRanges (testCb ((getText block).take sel.focusOffset)).remove = []) :
    ∀ schema attributeKey formatCb batch content,
      onChange schema testCb attributeKey formatCb batch sel changes block = none ∧
      applyEnqueued content
        (onChange schema testCb attributeKey formatCb batch sel changes block) = content := by
  intro schema attributeKey formatCb batch content
  rw [onChange_none_of_empty h schema attributeKey formatCb batch changes]
  exact ⟨rfl, rfl⟩

/-- Witness for C7 at a stub test callback with no usable ranges. -/
theorem C7_witness :
    singleCharInsert oneCharInsert = true ∧
    onChange schemaId tcbNoRanges (some "testAttribute")
      (defaultFormatCallback "testAttribute") batchDefault (caretAt 7) oneCharInsert
      sampleBlock = none ∧
    applyEnqueued [⟨'*', []⟩]
      (onChange schemaId tcbNoRanges (some "testAttribute")
        (defaultFormatCallback "testAttribute") batchDefault (caretAt 7) oneCharInsert
        sampleBlock) = [⟨'*', []⟩] :=
  ⟨rfl,
   (C7_no_match_frame tcbNoRanges (caretAt 7) sampleBlock oneCharInsert rfl (Or.inl rfl)
     schemaId (some "testAttribute") (defaultFormatCallback "testAttribute") batchDefault
     [⟨'*', []⟩]).1,
   (C7_no_match_frame tcbNoRanges (caretAt 7) sampleBlock oneCharInsert rfl (Or.inl rfl)
     schemaId (some "testAttribute") (defaultFormatCallback "testAttribute") batchDefault
     [⟨'*', []⟩]).2⟩

/-- C8: every pair with an `undefined` bound is dropped silently before
offset-to-range conversion, and every remaining pair `[a, b]` becomes the
model range from position `a` to position `b` in the caret's block. -/
theorem C8_conversion_filters_undefined (arrays : List (Option Int × Option Int)) :
    testOutputToRanges arrays =
      arrays.filterMap fun array =>
        match array with
        | (some a, some b) => some ⟨a, b⟩
        | _ => none := by
  induction arrays with
  | nil => rfl
  | cons hd tl ih =>
    obtain ⟨o1, o2⟩ := hd
    cases o1 <;> cases o2 <;>
      simp_all [testOutputToRanges, List.filter_cons, List.filterMap_cons]

/-- C9: the default regex-driven test callback is observationally
stateless: across any sequence of invocations sharing one regex object
(whose `lastIndex` is threaded from call to call), each result depends only
on that call's text — two invocations on the same text give the same
`{remove, format}` result wherever they occur in the sequence. -/
theorem C9_stateless_results (re : GlobalRegex) (texts : List String) :
    runSequence re 0 texts = texts.map (testCallback re) := by
  by_cases h4 : re.arity < 4
  · suffices h : ∀ i, runSequence re i texts = texts.map (testCallback re) by exact h 0
    intro i
    induction texts generalizing i with
    | nil => rfl
    | cons t ts ih =>
      simp [runSequence, ih, testCallback, defaultLoop_break re h4]
  · induction texts with
    | nil => rfl
    | cons t ts ih =>
      have h2 := defaultLoop_lastIndex re h4 t 0 [] []
      simp [runSequence, h2, ih, testCallback]

/-- C10: when the formatting target is a callback, `attributeKey` stays
`undefined`, the schema narrowing query is still performed — keyed on that
undefined attribute name, never on the callback — and the narrowed ranges
are what the callback receives. -/
theorem C10_callback_still_narrows (f : List ModelRange → List WriterAction)
    (schema : List ModelRange → Option String → List ModelRange)
    (testCb : String → TestOutput)
    (batch : Batch) (sel : Selection) (changes : List ChangeEntry) (block : Block)
    (e : Enqueued)
    (h : onChange schema testCb (resolveAttributeKey (.callback f))
        (resolveFormatCallback (.callback f)) batch sel changes block = some e) :
    resolveAttributeKey (AttrOrCallback.callback f) = none ∧
    e.validRanges =
      schema (testOutputToRanges (testCb ((getText block).take sel.focusOffset)).format)
        none ∧
    e.formatActions = f e.validRanges := by
  obtain ⟨h1, h2, -, -, -⟩ := onChange_some_spec h
  exact ⟨rfl, h1, h2⟩

/-- Witness for C10 at the custom callback `cbCustom`. -/
theorem C10_witness :
    resolveAttributeKey (AttrOrCallback.callback cbCustom) = none ∧
    enqCallback.validRanges =
      schemaId (testOutputToRanges
        (tcbAscending ((getText sampleBlock).take (caretAt 7).focusOffset)).format) none ∧
    enqCallback.formatActions = cbCustom enqCallback.validRanges :=
  C10_callback_still_narrows cbCustom schemaId tcbAscending batchDefault (caretAt 7)
    oneCharInsert sampleBlock enqCallback rfl

end InlineAutoformat
